import Mathlib

/-!
Verification of the gensx workflow runtime core.

This file gives a shallow embedding, in Lean 4, of the three core
subsystems of the runtime:

* deep value resolution (`src/src/resolve.ts`: `resolveDeep`, `execute`),
* scoped execution-context propagation (`context.ts`: `ExecutionContext`,
  `withContext`, the shared-slot fallback of the context manager),
* execution-tree checkpointing (`packages/gensx/src/checkpoint.ts`:
  `CheckpointManager.addNode` / `completeNode` / `addMetadata` /
  `updateCheckpoint` / `writeCheckpoint`), and
* the component wrappers (`Component`, `StreamComponent`).

JavaScript runtime values are modelled by the inductive type `Value`:
promises (deferred values) carry an irrelevant `delay` field standing for
their asynchronous completion timing, streamables carry their token list
and the settled value of their accumulated-value handle, and executable
JSX nodes carry the value their invocation produces together with an
optional defunctionalized children continuation.  Stateful code is
modelled by explicit state passing; exceptions by `Except`.
-/

set_option autoImplicit false

namespace Gensx

mutual

/-- JavaScript values as consumed and produced by the runtime.
`vPromise delay v` is a deferred value that settles to `v` after an
arbitrary completion delay (the delay is observable to schedulers but not
to awaiters); `vStreamable tokens acc` is a streamable whose lazy token
sequence is `tokens` and whose accumulated-value handle settles to `acc`;
`vElement result children` is an executable node whose invocation
(`value.type(value.props)`) produces `result`, with `children` the
optional continuation found in its props. -/
inductive Value where
  | vNull
  | vUndefined
  | vStr (s : String)
  | vNum (n : Int)
  | vBool (b : Bool)
  | vPromise (delay : Nat) (v : Value)
  | vStreamable (tokens : List String) (acc : Value)
  | vArr (xs : List Value)
  | vElement (result : Value) (children : Option Cont)
  | vObj (fields : List (String × Value))

/-- Defunctionalized children continuation: in the source a `children`
prop is a function from the resolved output to a further tree.  The two
representative shapes are a constant continuation (ignores the output)
and the identity continuation (returns the resolved output). -/
inductive Cont where
  | constV (v : Value)
  | idC

end

/-- Application of a defunctionalized children continuation. -/
def applyCont : Cont → Value → Value
  | .constV v, _ => v
  | .idC, out => out

/-- JavaScript `await` on a settled value: awaiting collapses any nesting
of promises, so stripping the leading `vPromise` layers yields the value
an `await` expression evaluates to. -/
def awaitP : Value → Value
  | .vPromise _ v => awaitP v
  | v => v

/-- The `element === null || element === undefined` guard of `execute`
(src/src/resolve.ts lines 97-99). -/
def isNullish : Value → Bool
  | .vNull => true
  | .vUndefined => true
  | _ => false

mutual

/-- Embedding of `resolveDeep` (src/src/resolve.ts lines 49-90).  The
`streaming` argument is the ambient `isInStreamingContext()` reading.
Cases in source order: a promise is awaited and its payload resolved
again; a streamable is returned as-is inside a streaming context and
otherwise its accumulated-value handle is awaited and returned (not
resolved further); an array fans out element-wise; a JSX element is
invoked and its result resolved; a plain object is resolved value-wise;
primitives are returned unchanged. -/
def resolveDeep (streaming : Bool) : Value → Value
  | .vPromise _ v => resolveDeep streaming v
  | .vStreamable t a => if streaming then .vStreamable t a else awaitP a
  | .vArr xs => .vArr (resolveList streaming xs)
  | .vElement r _ => resolveDeep streaming r
  | .vObj fs => .vObj (resolveFields streaming fs)
  | .vNull => .vNull
  | .vUndefined => .vUndefined
  | .vStr s => .vStr s
  | .vNum n => .vNum n
  | .vBool b => .vBool b

/-- Element-wise resolution of an array (`Promise.all(value.map(...))`):
results are reassembled in the original element order. -/
def resolveList (streaming : Bool) : List Value → List Value
  | [] => []
  | x :: xs => resolveDeep streaming x :: resolveList streaming xs

/-- Value-wise resolution of a plain object's entries
(`Object.fromEntries` over resolved `Object.entries`). -/
def resolveFields (streaming : Bool) :
    List (String × Value) → List (String × Value)
  | [] => []
  | (k, v) :: fs => (k, resolveDeep streaming v) :: resolveFields streaming fs

end

/-- Errors surfaced by the `execute` entry point: the null/undefined
input rejection, and exhaustion of the recursion fuel that stands for a
non-terminating continuation chain. -/
inductive RErr where
  | nullInput
  | fuelOut
  deriving Repr, DecidableEq

mutual

/-- Embedding of `execute` (src/src/resolve.ts lines 96-118): reject
`null`/`undefined` input, then dispatch to the body.  The `fuel`
argument bounds the continuation-chaining recursion, which is unbounded
in the source. -/
def execute (streaming : Bool) : Nat → Value → Except RErr Value
  | 0, _ => .error .fuelOut
  | fuel + 1, e =>
    if isNullish e then .error .nullInput
    else executeBody streaming fuel e

/-- The body of `execute` after the null/undefined guard: a JSX element
with a children continuation has its direct output resolved, the
continuation invoked on the resolved output, and the continuation's tree
executed recursively; an element without children, and any other value,
is deep-resolved. -/
def executeBody (streaming : Bool) (fuel : Nat) : Value → Except RErr Value
  | .vElement r (some c) =>
    execute streaming fuel (applyCont c (resolveDeep streaming r))
  | .vElement r none => .ok (resolveDeep streaming r)
  | e => .ok (resolveDeep streaming e)

end

/-! ## Checkpoint tree and publisher (`packages/gensx/src/checkpoint.ts`) -/

/-- Association-list lookup, the embedding of `Map.get` and of JavaScript
property lookup (first matching key wins; `aset` below keeps keys
unique). -/
def alookup {κ α : Type} [DecidableEq κ] : List (κ × α) → κ → Option α
  | [], _ => none
  | (k, v) :: rest, key => if k = key then some v else alookup rest key

/-- Association-list update, the embedding of `Map.set`: the new binding
replaces any existing binding of the same key. -/
def aset {κ α : Type} [DecidableEq κ] (m : List (κ × α)) (key : κ) (v : α) :
    List (κ × α) :=
  (key, v) :: m.filter (fun kv => kv.1 ≠ key)

/-- Execution node record (`ExecutionNode`, checkpoint.ts lines 21-38).
`children` holds the ids of attached child nodes: in the source the
`children` array holds the very node objects that the node map holds, so
an id-indexed arena is the faithful persistent rendering of that
aliasing. -/
structure ENode where
  id : String
  componentName : String
  parentId : Option String := none
  startTime : Nat
  endTime : Option Nat := none
  props : List (String × Value) := []
  output : Option Value := none
  children : List String := []
  metadata : List (String × Value) := []

/-- The `Partial<ExecutionNode>` argument of `addNode`: the fields that
callers actually provide. -/
structure NodePatch where
  id : Option String := none
  componentName : Option String := none
  props : Option (List (String × Value)) := none

/-- State of a `CheckpointManager`: the node arena and root id, the
fresh-id counter and a logical clock standing for `Date.now()`, the
enablement gate, the publisher flags `activeCheckpoint`/`pendingUpdate`,
the log of publishes started (each with the snapshot it carries), and
console output. -/
structure CM where
  nodes : List (String × ENode) := []
  root : Option String := none
  counter : Nat := 0
  clock : Nat := 0
  checkpointsEnabled : Bool := true
  activeCheckpoint : Bool := false
  pendingUpdate : Bool := false
  started : List (Option String × List (String × ENode)) := []
  logs : List String := []

/-- Fresh node identity, standing for `generateUUID()`. -/
def freshId (s : CM) : String := "uuid-" ++ toString s.counter

/-- Embedding of `updateCheckpoint` (checkpoint.ts lines 75-97): no-op
when disabled or rootless; if a write is in flight, only mark
`pendingUpdate`; otherwise start a write carrying the current tree
snapshot. -/
def updateCheckpoint (s : CM) : CM :=
  if !s.checkpointsEnabled || s.root.isNone then s
  else if s.activeCheckpoint then { s with pendingUpdate := true }
  else { s with activeCheckpoint := true,
                started := s.started ++ [(s.root, s.nodes)] }

/-- Embedding of `addNode` (checkpoint.ts lines 122-146): build the node
from defaults overridden by the patch, register it, then — exactly as the
source — if a `parentId` is supplied and that parent is registered,
record the parent link and append the child to the parent's `children`;
if the parent is unknown, do nothing further; if no `parentId` is
supplied and no root exists, the node becomes the root. -/
def addNode (s : CM) (patch : NodePatch) (parentId : Option String) :
    String × CM :=
  let nid := patch.id.getD (freshId s)
  let node : ENode := {
    id := nid
    componentName := patch.componentName.getD "Unknown"
    startTime := s.clock
    props := patch.props.getD [] }
  let s₁ : CM := { s with counter := s.counter + 1, clock := s.clock + 1,
                          nodes := aset s.nodes nid node }
  let s₂ : CM :=
    match parentId with
    | some pid =>
      match alookup s₁.nodes pid with
      | some parent =>
        let node₂ : ENode := { node with parentId := some pid }
        let parent₂ : ENode := { parent with children := parent.children ++ [nid] }
        { s₁ with nodes := aset (aset s₁.nodes nid node₂) pid parent₂ }
      | none => s₁
    | none => if s₁.root.isNone then { s₁ with root := some nid } else s₁
  (nid, updateCheckpoint s₂)

/-- Embedding of `completeNode` (checkpoint.ts lines 148-157): record end
timestamp and output for a known node and trigger a publish; warn on the
console (without throwing) for an unknown id. -/
def completeNode (s : CM) (id : String) (output : Value) : CM :=
  match alookup s.nodes id with
  | some node =>
    let node₂ : ENode := { node with endTime := some s.clock, output := some output }
    updateCheckpoint { s with clock := s.clock + 1, nodes := aset s.nodes id node₂ }
  | none =>
    { s with logs :=
        s.logs ++ ["[Tracker] Attempted to complete unknown node: " ++ id] }

/-- JavaScript object-spread merge `{...node.metadata, ...metadata}`:
bindings of the update shadow bindings of the old bag, other bindings
survive. -/
def metaMerge (old new : List (String × Value)) : List (String × Value) :=
  old.filter (fun kv => (alookup new kv.1).isNone) ++ new

/-- Embedding of `addMetadata` (checkpoint.ts lines 159-165): merge into
a known node's metadata bag non-destructively and trigger a publish;
silently ignore an unknown id. -/
def addMetadata (s : CM) (id : String) (md : List (String × Value)) : CM :=
  match alookup s.nodes id with
  | some node =>
    let node₂ : ENode := { node with metadata := metaMerge node.metadata md }
    updateCheckpoint { s with nodes := aset s.nodes id node₂ }
  | none => s

/-- Outcome of one `fetch` POST of a checkpoint snapshot: success, an
HTTP error status, or a transport error (the promise rejects). -/
inductive FetchOutcome where
  | ok
  | httpErr (status : Nat) (text : String)
  | netErr (msg : String)

/-- The `fetch` call as seen by `writeCheckpoint`: a transport failure
raises, otherwise a response with a status arrives. -/
def fetchPost (outcome : FetchOutcome) : Except String (Nat × String) :=
  match outcome with
  | .ok => .ok (200, "")
  | .httpErr status text => .ok (status, text)
  | .netErr msg => .error msg

/-- The `response.ok` predicate: status in the 2xx range. -/
def responseOk (status : Nat) : Bool := 200 ≤ status && status < 300

/-- Embedding of `writeCheckpoint` (checkpoint.ts lines 99-120): when a
root exists, POST the snapshot; a non-2xx response is logged; a raised
transport error is caught by the surrounding `try`/`catch` and logged.
The result type records that the caller can still observe a raised
error; the theorems show none ever escapes. -/
def writeCheckpointRun (outcome : FetchOutcome) (s : CM) : Except String CM :=
  if s.root.isNone then .ok s
  else
    match fetchPost outcome with
    | .ok (status, text) =>
      if responseOk status then .ok s
      else .ok { s with logs := s.logs ++
        ["[Checkpoint] Failed to save checkpoint, server error: " ++
          toString status ++ " " ++ text] }
    | .error msg => .ok { s with logs := s.logs ++
        ["[Checkpoint] Failed to save checkpoint: " ++ msg] }

/-- The `.finally` continuation installed by `updateCheckpoint` when it
starts a write (checkpoint.ts lines 87-96): when the in-flight write
settles, clear `activeCheckpoint`; if a pending update was recorded,
clear it and run `updateCheckpoint` again, which starts exactly one
follow-up write with the latest state. -/
def finishPublish (outcome : FetchOutcome) (s : CM) : Except String CM :=
  (writeCheckpointRun outcome s).map (fun s₁ =>
    let s₂ : CM := { s₁ with activeCheckpoint := false }
    if s₂.pendingUpdate then updateCheckpoint { s₂ with pendingUpdate := false }
    else s₂)

/-- A mutating call on the checkpoint manager. -/
inductive CMOp where
  | opAdd (patch : NodePatch) (parentId : Option String)
  | opComplete (id : String) (output : Value)
  | opMeta (id : String) (md : List (String × Value))

/-- Application of one mutating call (each of which triggers
`updateCheckpoint` internally). -/
def applyOp (s : CM) : CMOp → CM
  | .opAdd p pid => (addNode s p pid).2
  | .opComplete id out => completeNode s id out
  | .opMeta id md => addMetadata s id md

/-- Ids reachable from a node by following `children` links, cut off by
fuel; the fuel-indexed union over all fuels is the node set of the
published JSON tree rooted there. -/
def reach (s : CM) : Nat → String → List String
  | 0, _ => []
  | fuel + 1, id =>
    id :: (match alookup s.nodes id with
           | some n => (n.children.map (reach s fuel)).flatten
           | none => [])

/-- The initial state of a fresh, enabled `CheckpointManager`. -/
def initCM : CM := {}

/-- Helper state for the publisher claims: a manager with a registered
root node and one publish currently in flight. -/
def inflightCM : CM :=
  { nodes := [("r", { id := "r", componentName := "Root", startTime := 0 })]
    root := some "r"
    checkpointsEnabled := true
    activeCheckpoint := true
    started := [(some "r",
      [("r", { id := "r", componentName := "Root", startTime := 0 })])] }

/-- Helper state for the root claim: a manager holding exactly the root
node produced by one parentless `addNode`. -/
def rootedCM : CM := (addNode initCM { componentName := some "Root" } none).2

/-! ## Component wrappers (`Component`, `StreamComponent`) -/

/-- A thrown JavaScript value: an `Error` instance carrying its
`message`, or any other thrown value (which has no message). -/
inductive Thrown where
  | err (msg : String)
  | nonErr (v : Value)

/-- Embedding of the `Component` wrapper's per-invocation sequence: open
a checkpoint node named after the component with the non-children props,
parented under the current node id; run the user function and
deep-resolve its result (the combined outcome is the `outcome`
argument); on success complete the node with the result and return it;
on failure record the error message as metadata and complete the node
with `undefined` — but only when the thrown value is an `Error`
instance — then re-raise the original thrown value. -/
def componentPatch (name : String) (props : List (String × Value)) :
    NodePatch :=
  { componentName := some name
    props := some (props.filter (fun kv => kv.1 ≠ "children")) }

def componentRun (name : String) (props : List (String × Value))
    (outcome : Except Thrown Value) (parent : Option String) (s : CM) :
    Except Thrown Value × CM :=
  let opened := addNode s (componentPatch name props) parent
  let nodeId := opened.1
  let s₁ := opened.2
  match outcome with
  | .ok result => (.ok result, completeNode s₁ nodeId result)
  | .error (.err msg) =>
    let s₂ := addMetadata s₁ nodeId [("error", .vStr msg)]
    (.error (.err msg), completeNode s₂ nodeId .vUndefined)
  | .error e => (.error e, s₁)

/-- Consumption of the pass-through iterator returned by the
`StreamComponent` wrapper in streaming mode: every token of the
underlying iterator is yielded to the consumer while being accumulated;
on natural end of the sequence the node is completed with the
accumulated string; on a mid-stream `Error` the error message is
recorded as metadata, the node is completed with the partial
accumulation, and the error is re-raised to the consumer.  `tokens` is
the prefix the underlying iterator yields before `failure` (if any)
occurs. -/
def streamConsume (nodeId : String) (tokens : List String)
    (failure : Option Thrown) (s : CM) :
    (List String × Option Thrown) × CM :=
  let accumulated := String.join tokens
  match failure with
  | none => ((tokens, none), completeNode s nodeId (.vStr accumulated))
  | some (.err msg) =>
    let s₁ := addMetadata s nodeId [("error", .vStr msg)]
    ((tokens, some (.err msg)), completeNode s₁ nodeId (.vStr accumulated))
  | some t => ((tokens, some t), s)

/-- A full streaming-mode invocation of a `StreamComponent`: open the
checkpoint node, obtain the iterator, return the pass-through wrapper,
and account for its eventual consumption. -/
def streamRun (name : String) (props : List (String × Value))
    (tokens : List String) (failure : Option Thrown)
    (parent : Option String) (s : CM) :
    (List String × Option Thrown) × CM :=
  let opened := addNode s (componentPatch name props) parent
  streamConsume opened.1 tokens failure opened.2

/-! ## Scoped execution context (`context.ts`, `ExecutionContext`) -/

/-- Execution-context frame: an own-bindings record (context symbols are
modelled as `Nat`) and a parent frame.  `withContext` in the source
creates a merged child frame whose parent is the frame it extends. -/
inductive ECtx where
  | mk (ctx : List (Nat × Value)) (parent : Option ECtx)

/-- Own bindings of a frame. -/
def ECtx.ctx : ECtx → List (Nat × Value)
  | .mk c _ => c

/-- Embedding of `ExecutionContext.get`: look the key up in the frame's
own record, else delegate to the parent chain — the nearest definition
wins. -/
def ECtx.get : ECtx → Nat → Option Value
  | .mk c none, k => alookup c k
  | .mk c (some par), k =>
    match alookup c k with
    | some v => some v
    | none => par.get k

/-- Embedding of `ExecutionContext.withContext`: an empty update returns
the same frame; otherwise a new frame is created whose own record copies
the current own bindings overridden by the update, with the current
frame as parent.  The current frame itself is never modified. -/
def ECtx.extendCtx (e : ECtx) (newC : List (Nat × Value)) : ECtx :=
  if newC.isEmpty then e
  else .mk (e.ctx.filter (fun kv => (alookup newC kv.1).isNone) ++ newC) (some e)

/-- A computation running under the context manager: it receives the
frame its scope installed, and may read or replace the shared
current-frame slot (the fallback `globalContext` variable); the pair is
its result (possibly a thrown value) and the slot's final value. -/
def Comp (α : Type) : Type := ECtx → Except Thrown α × ECtx

/-- Embedding of `contextManager.run` (shared-slot fallback): save the
current slot, install the scope's frame for the callee, and in a
`finally` restore the saved frame — whether the callee returned or
threw. -/
def ctxRun {α : Type} (c : ECtx) (fn : Comp α) : Comp α :=
  fun cur => ((fn c).1, cur)

/-- Embedding of the `withContext` helper: read the current frame,
extend it with the update, and run the body under the extended frame via
the context manager. -/
def withContextRun {α : Type} (newC : List (Nat × Value)) (fn : Comp α) :
    Comp α :=
  fun cur => ctxRun (cur.extendCtx newC) fn cur

/-- The `value === undefined` test of `useContext`. -/
def isUndefined : Value → Bool
  | .vUndefined => true
  | _ => false

/-- Embedding of `useContext` (part_005 lines 43-52): read the value
visible for the key in the frame lineage; when the lookup comes back
`undefined` — either because the key is absent from the whole lineage or
because it is bound to `undefined` — return the context's default
(`if (value === undefined) return context.defaultValue`). -/
def useContextRun (k : Nat) (dflt : Value) (e : ECtx) : Value :=
  match e.get k with
  | none => dflt
  | some v => if isUndefined v then dflt else v

/-! ## Basic lemmas -/

theorem alookup_filter_ne {κ α : Type} [DecidableEq κ] (m : List (κ × α))
    (k key : κ) (h : key ≠ k) :
    alookup (m.filter fun kv => kv.1 ≠ k) key = alookup m key := by
  induction m with
  | nil => rfl
  | cons kv rest ih =>
    by_cases hk : kv.1 = k <;> by_cases hkey : kv.1 = key <;>
      simp_all [List.filter_cons, alookup]

theorem alookup_aset_self {κ α : Type} [DecidableEq κ] (m : List (κ × α))
    (key : κ) (v : α) : alookup (aset m key v) key = some v := by
  simp [aset, alookup]

theorem alookup_aset_ne {κ α : Type} [DecidableEq κ] (m : List (κ × α))
    (k key : κ) (v : α) (h : key ≠ k) :
    alookup (aset m k v) key = alookup m key := by
  simp only [aset, alookup]
  rw [if_neg (fun hk => h hk.symm)]
  exact alookup_filter_ne m k key h

theorem resolveList_eq_map (streaming : Bool) (xs : List Value) :
    resolveList streaming xs = xs.map (resolveDeep streaming) := by
  induction xs with
  | nil => rfl
  | cons x xs ih => simp [resolveList, ih]

theorem resolveList_zip_promise (streaming : Bool) :
    ∀ (ds : List Nat) (xs : List Value), ds.length = xs.length →
      resolveList streaming (List.zipWith Value.vPromise ds xs) =
        xs.map (resolveDeep streaming) := by
  intro ds
  induction ds with
  | nil =>
    intro xs h
    cases xs with
    | nil => rfl
    | cons x xs => simp at h
  | cons d ds ih =>
    intro xs h
    cases xs with
    | nil => simp at h
    | cons x xs =>
      simp only [List.zipWith, resolveList, List.map]
      rw [ih xs (by simpa using h)]
      rfl

/-! ## Claim theorems: deep resolution -/

/-- C1: inside a streaming scope, `resolveDeep` returns a streamable
value itself, unresolved and identity-preserving; outside a streaming
scope it returns the result of awaiting the streamable's
accumulated-value handle. -/
theorem streamable_passthrough (t : List String) (a : Value) :
    resolveDeep true (.vStreamable t a) = .vStreamable t a ∧
    resolveDeep false (.vStreamable t a) = awaitP a :=
  ⟨rfl, rfl⟩

/-- C5: `resolveDeep` on an array resolves every element and reassembles
the results in the original element order, independently of the
elements' completion delays (the `zipWith Value.vPromise ds xs` array is
`xs` with arbitrary per-element delays, and the delays do not appear in
the result); the element at every index of the result is the resolution
of the element at the same index of the input; an empty array resolves
to the empty array. -/
theorem resolveDeep_array_order (streaming : Bool) (ds : List Nat)
    (xs : List Value) (i : Nat) (h : ds.length = xs.length) :
    resolveDeep streaming (.vArr (List.zipWith Value.vPromise ds xs)) =
      .vArr (xs.map (resolveDeep streaming)) ∧
    (resolveList streaming xs)[i]? =
      (xs[i]?).map (resolveDeep streaming) ∧
    resolveDeep streaming (.vArr []) = .vArr [] := by
  refine ⟨?_, ?_, rfl⟩
  · show Value.vArr (resolveList streaming (List.zipWith Value.vPromise ds xs)) = _
    rw [resolveList_zip_promise streaming ds xs h]
  · rw [resolveList_eq_map]
    simp [List.getElem?_map]

/-- C5 witness: the array claim evaluated at the concrete two-element
array with distinct delays. -/
theorem resolveDeep_array_order_witness :
    resolveDeep false (.vArr (List.zipWith Value.vPromise [3, 1]
        [.vStr "a", .vStr "b"])) =
      .vArr ([Value.vStr "a", Value.vStr "b"].map (resolveDeep false)) ∧
    (resolveList false [Value.vStr "a", Value.vStr "b"])[0]? =
      ([Value.vStr "a", Value.vStr "b"][0]?).map (resolveDeep false) ∧
    resolveDeep false (.vArr []) = .vArr [] :=
  resolveDeep_array_order false [3, 1] [.vStr "a", .vStr "b"] 0 rfl

/-- C4: `execute` rejects a `null` or `undefined` element with an error
(never a silently coerced success value), and for every other element
the null/undefined precondition check passes and `execute` proceeds to
its body. -/
theorem execute_null_guard (streaming : Bool) (fuel : Nat) (e : Value) :
    ((e = .vNull ∨ e = .vUndefined) →
      execute streaming (fuel + 1) e = .error .nullInput) ∧
    (¬(e = .vNull ∨ e = .vUndefined) →
      execute streaming (fuel + 1) e = executeBody streaming fuel e) := by
  constructor
  · rintro (rfl | rfl) <;> simp [execute, isNullish]
  · intro hn
    have hni : isNullish e = false := by
      cases e <;>
        first
          | rfl
          | exact absurd (Or.inl rfl) hn
          | exact absurd (Or.inr rfl) hn
    simp [execute, hni]

/-- C4 witness: the guard fires at `null` and passes a string through to
the body. -/
theorem execute_null_guard_witness :
    execute false 1 .vNull = .error .nullInput ∧
    execute false 1 (.vStr "x") = executeBody false 0 (.vStr "x") :=
  ⟨(execute_null_guard false 0 .vNull).1 (Or.inl rfl),
   (execute_null_guard false 0 (.vStr "x")).2 (by simp)⟩

/-! ## Claim theorems: checkpoint tree reconstruction -/

/-- C2 (evaluation of the code at the failing input): a node added with a
`parentId` naming a not-yet-registered parent is put in the node map, but
when the parent is registered afterwards the held child is never
attached: the parent (which becomes the root) ends with an empty
`children` list and the child keeps no `parentId`, contradicting the
out-of-order reconciliation the claim (and the repository's own
checkpoint test) requires. -/
theorem orphan_not_attached :
    (addNode initCM { componentName := some "Child1" } (some "p")).1 =
      "uuid-0" ∧
    ((addNode (addNode initCM { componentName := some "Child1" }
        (some "p")).2
        { componentName := some "Parent", id := some "p" } none).2.root =
      some "p") ∧
    ((alookup (addNode (addNode initCM { componentName := some "Child1" }
        (some "p")).2
        { componentName := some "Parent", id := some "p" } none).2.nodes
        "p").map ENode.children = some []) ∧
    ((alookup (addNode (addNode initCM { componentName := some "Child1" }
        (some "p")).2
        { componentName := some "Parent", id := some "p" } none).2.nodes
        "uuid-0").map ENode.parentId = some none) :=
  ⟨rfl, rfl, rfl, rfl⟩

/-- C7 (evaluation of the code at the failing input): a streaming-mode
invocation passes the tokens through and on natural end completes the
node with the accumulated buffer, but writes no metadata marking the
stream as cleanly completed; on a mid-stream failure it records the
error and the partial accumulation, but writes no metadata marking the
stream as not cleanly completed — both contradict the claim and the
repository's own streaming checkpoint tests, which expect
`streamCompleted: true` / `streamCompleted: false`. -/
theorem stream_missing_completed_flag :
    ((streamRun "StreamingComponent" [] ["Hello", " ", "World"] none none
        initCM).1.1 = ["Hello", " ", "World"]) ∧
    ((alookup (streamRun "StreamingComponent" [] ["Hello", " ", "World"]
        none none initCM).2.nodes "uuid-0").map ENode.output =
      some (some (.vStr "Hello World"))) ∧
    ((alookup (streamRun "StreamingComponent" [] ["Hello", " ", "World"]
        none none initCM).2.nodes "uuid-0").map
        (fun n => alookup n.metadata "streamCompleted") = some none) ∧
    ((alookup (streamRun "ErrorStreamingComponent" [] ["start"]
        (some (.err "Stream error")) none initCM).2.nodes "uuid-0").map
        ENode.output = some (some (.vStr "start"))) ∧
    ((alookup (streamRun "ErrorStreamingComponent" [] ["start"]
        (some (.err "Stream error")) none initCM).2.nodes "uuid-0").map
        (fun n => alookup n.metadata "error") =
      some (some (.vStr "Stream error"))) ∧
    ((alookup (streamRun "ErrorStreamingComponent" [] ["start"]
        (some (.err "Stream error")) none initCM).2.nodes "uuid-0").map
        (fun n => alookup n.metadata "streamCompleted") = some none) :=
  ⟨rfl, rfl, rfl, rfl, rfl, rfl⟩

/-! ## Publisher state lemmas -/

theorem updateCheckpoint_tree (s : CM) :
    (updateCheckpoint s).nodes = s.nodes ∧
    (updateCheckpoint s).root = s.root ∧
    (updateCheckpoint s).clock = s.clock ∧
    (updateCheckpoint s).counter = s.counter ∧
    (updateCheckpoint s).checkpointsEnabled = s.checkpointsEnabled := by
  unfold updateCheckpoint
  split
  · exact ⟨rfl, rfl, rfl, rfl, rfl⟩
  · split <;> exact ⟨rfl, rfl, rfl, rfl, rfl⟩

theorem updateCheckpoint_nodes (s : CM) :
    (updateCheckpoint s).nodes = s.nodes := (updateCheckpoint_tree s).1

/-- Lookup of a node just registered by `addNode` under the returned id:
the node exists and carries the patch's component name and props with
fresh (empty) metadata, no output and no end timestamp. -/
theorem addNode_lookup (s : CM) (patch : NodePatch) (pid : Option String) :
    ∃ n : ENode,
      alookup (addNode s patch pid).2.nodes (addNode s patch pid).1 =
        some n ∧
      n.componentName = patch.componentName.getD "Unknown" ∧
      n.props = patch.props.getD [] ∧
      n.metadata = [] ∧ n.output = none ∧ n.endTime = none := by
  unfold addNode
  cases pid with
  | none =>
    simp only [updateCheckpoint_nodes]
    split
    · exact ⟨_, alookup_aset_self _ _ _, rfl, rfl, rfl, rfl, rfl⟩
    · exact ⟨_, alookup_aset_self _ _ _, rfl, rfl, rfl, rfl, rfl⟩
  | some p =>
    simp only [updateCheckpoint_nodes]
    cases halo : alookup (aset s.nodes (patch.id.getD (freshId s))
        { id := patch.id.getD (freshId s)
          componentName := patch.componentName.getD "Unknown"
          startTime := s.clock
          props := patch.props.getD [] }) p with
    | none =>
      simp only [halo]
      exact ⟨_, alookup_aset_self _ _ _, rfl, rfl, rfl, rfl, rfl⟩
    | some parent =>
      simp only [halo]
      by_cases hp : p = patch.id.getD (freshId s)
      · subst hp
        rw [alookup_aset_self] at halo
        cases halo
        exact ⟨_, alookup_aset_self _ _ _, rfl, rfl, rfl, rfl, rfl⟩
      · refine ⟨{ id := patch.id.getD (freshId s)
                  componentName := patch.componentName.getD "Unknown"
                  startTime := s.clock
                  props := patch.props.getD []
                  parentId := some p }, ?_, rfl, rfl, rfl, rfl, rfl⟩
        rw [alookup_aset_ne _ _ _ _ (fun he => hp he.symm),
          alookup_aset_self]

theorem metaMerge_nil (new : List (String × Value)) :
    metaMerge [] new = new := by
  simp [metaMerge]

/-- C6: when a component invocation's user function (or the deep
resolution of its result) throws an `Error`, the wrapper records the
error's message under the `error` key of the invocation's checkpoint
node metadata, completes that node with `undefined` output (and an end
timestamp), and re-raises the original error unchanged to the caller: it
never swallows the failure. -/
theorem component_failure_records (name : String)
    (props : List (String × Value)) (msg : String) (parent : Option String)
    (s : CM) :
    (componentRun name props (.error (.err msg)) parent s).1 =
      .error (.err msg) ∧
    ((alookup (componentRun name props (.error (.err msg)) parent s).2.nodes
        (addNode s (componentPatch name props) parent).1).map
        (fun n => alookup n.metadata "error")) =
      some (some (.vStr msg)) ∧
    ((alookup (componentRun name props (.error (.err msg)) parent s).2.nodes
        (addNode s (componentPatch name props) parent).1).map
        ENode.output) = some (some .vUndefined) ∧
    ((alookup (componentRun name props (.error (.err msg)) parent s).2.nodes
        (addNode s (componentPatch name props) parent).1).map
        (fun n => n.endTime.isSome)) = some true := by
  obtain ⟨n₀, hlook, -, -, hmd, -, -⟩ :=
    addNode_lookup s (componentPatch name props) parent
  have hstate : (componentRun name props (.error (.err msg)) parent s).2 =
      completeNode
        (addMetadata (addNode s (componentPatch name props) parent).2
          (addNode s (componentPatch name props) parent).1
          [("error", .vStr msg)])
        (addNode s (componentPatch name props) parent).1 .vUndefined := rfl
  have hmeta : (addMetadata (addNode s (componentPatch name props) parent).2
      (addNode s (componentPatch name props) parent).1
      [("error", .vStr msg)]).nodes =
      aset (addNode s (componentPatch name props) parent).2.nodes
        (addNode s (componentPatch name props) parent).1
        { n₀ with metadata := metaMerge n₀.metadata [("error", .vStr msg)] } := by
    simp only [addMetadata, hlook, updateCheckpoint_nodes]
  have hlook₂ : alookup (addMetadata
      (addNode s (componentPatch name props) parent).2
      (addNode s (componentPatch name props) parent).1
      [("error", .vStr msg)]).nodes
      (addNode s (componentPatch name props) parent).1 =
      some { n₀ with
              metadata := metaMerge n₀.metadata [("error", .vStr msg)] } := by
    rw [hmeta, alookup_aset_self]
  have hfin : alookup (componentRun name props
      (.error (.err msg)) parent s).2.nodes
      (addNode s (componentPatch name props) parent).1 =
      some { n₀ with
              metadata := metaMerge n₀.metadata [("error", .vStr msg)],
              endTime := some (addMetadata
                (addNode s (componentPatch name props) parent).2
                (addNode s (componentPatch name props) parent).1
                [("error", .vStr msg)]).clock,
              output := some .vUndefined } := by
    rw [hstate]
    simp only [completeNode, hlook₂, updateCheckpoint_nodes]
    rw [alookup_aset_self]
  refine ⟨rfl, ?_, ?_, ?_⟩ <;> rw [hfin] <;> simp [hmd, metaMerge_nil, alookup]

theorem updateCheckpoint_inflight (s : CM) (he : s.checkpointsEnabled = true)
    (ha : s.activeCheckpoint = true) (hr : s.root.isSome = true) :
    updateCheckpoint s = { s with pendingUpdate := true } := by
  obtain ⟨r, hr'⟩ := Option.isSome_iff_exists.mp hr
  simp [updateCheckpoint, he, ha, hr']

theorem addNode_state_shape (s : CM) (p : NodePatch) (pid : Option String)
    (hr : s.root.isSome = true) :
    ∃ ns, (addNode s p pid).2 =
      updateCheckpoint
        { s with nodes := ns, counter := s.counter + 1,
                 clock := s.clock + 1 } := by
  obtain ⟨r, hr'⟩ := Option.isSome_iff_exists.mp hr
  unfold addNode
  cases pid with
  | none =>
    refine ⟨aset s.nodes (p.id.getD (freshId s))
      { id := p.id.getD (freshId s)
        componentName := p.componentName.getD "Unknown"
        startTime := s.clock
        props := p.props.getD [] }, ?_⟩
    simp [hr']
  | some pp =>
    cases halo : alookup (aset s.nodes (p.id.getD (freshId s))
        { id := p.id.getD (freshId s)
          componentName := p.componentName.getD "Unknown"
          startTime := s.clock
          props := p.props.getD [] }) pp with
    | none =>
      refine ⟨aset s.nodes (p.id.getD (freshId s))
        { id := p.id.getD (freshId s)
          componentName := p.componentName.getD "Unknown"
          startTime := s.clock
          props := p.props.getD [] }, ?_⟩
      simp only [halo]
    | some parent =>
      refine ⟨aset (aset (aset s.nodes (p.id.getD (freshId s))
          { id := p.id.getD (freshId s)
            componentName := p.componentName.getD "Unknown"
            startTime := s.clock
            props := p.props.getD [] })
          (p.id.getD (freshId s))
          { id := p.id.getD (freshId s)
            componentName := p.componentName.getD "Unknown"
            startTime := s.clock
            props := p.props.getD []
            parentId := some pp }) pp
          { parent with
              children := parent.children ++ [p.id.getD (freshId s)] }, ?_⟩
      simp only [halo]

/-- Effect of one mutating call while a publish is in flight: the
enablement, the in-flight flag, the root and — crucially — the list of
started publishes are unchanged (no second publish starts while one is
in flight); a recorded pending update stays recorded; an `addNode` call
always records a pending update. -/
theorem applyOp_inflight (s : CM) (op : CMOp)
    (he : s.checkpointsEnabled = true) (ha : s.activeCheckpoint = true)
    (hr : s.root.isSome = true) :
    (applyOp s op).checkpointsEnabled = true ∧
    (applyOp s op).activeCheckpoint = true ∧
    (applyOp s op).root = s.root ∧
    (applyOp s op).started = s.started ∧
    (s.pendingUpdate = true → (applyOp s op).pendingUpdate = true) ∧
    (∀ p pid, op = .opAdd p pid → (applyOp s op).pendingUpdate = true) := by
  cases op with
  | opAdd p pid =>
    obtain ⟨ns, hshape⟩ := addNode_state_shape s p pid hr
    have happ : applyOp s (.opAdd p pid) =
        { s with nodes := ns, counter := s.counter + 1,
                 clock := s.clock + 1, pendingUpdate := true } := by
      show (addNode s p pid).2 = _
      rw [hshape]
      exact updateCheckpoint_inflight _ he ha hr
    rw [happ]
    exact ⟨he, ha, rfl, rfl, fun _ => rfl, fun _ _ _ => rfl⟩
  | opComplete id out =>
    cases halo : alookup s.nodes id with
    | some n =>
      have happ : applyOp s (.opComplete id out) =
          { s with clock := s.clock + 1,
                   nodes := aset s.nodes id
                     { n with endTime := some s.clock, output := some out },
                   pendingUpdate := true } := by
        show completeNode s id out = _
        unfold completeNode
        rw [halo]
        exact updateCheckpoint_inflight _ he ha hr
      rw [happ]
      exact ⟨he, ha, rfl, rfl, fun _ => rfl, fun p pid h => nomatch h⟩
    | none =>
      have happ : applyOp s (.opComplete id out) =
          { s with logs := s.logs ++
              ["[Tracker] Attempted to complete unknown node: " ++ id] } := by
        show completeNode s id out = _
        unfold completeNode
        rw [halo]
      rw [happ]
      exact ⟨he, ha, rfl, rfl, fun h => h, fun p pid h => nomatch h⟩
  | opMeta id md =>
    cases halo : alookup s.nodes id with
    | some n =>
      have happ : applyOp s (.opMeta id md) =
          { s with nodes := aset s.nodes id
                     { n with metadata := metaMerge n.metadata md },
                   pendingUpdate := true } := by
        show addMetadata s id md = _
        unfold addMetadata
        rw [halo]
        exact updateCheckpoint_inflight _ he ha hr
      rw [happ]
      exact ⟨he, ha, rfl, rfl, fun _ => rfl, fun p pid h => nomatch h⟩
    | none =>
      have happ : applyOp s (.opMeta id md) = s := by
        show addMetadata s id md = _
        unfold addMetadata
        rw [halo]
      rw [happ]
      exact ⟨he, ha, rfl, rfl, fun h => h, fun p pid h => nomatch h⟩

/-- Effect of a whole burst of mutating calls while a publish is in
flight: no publish starts, the in-flight flag persists, the root is
unchanged, a pending update persists, and a burst containing at least
one `addNode` leaves a pending update recorded. -/
theorem foldl_inflight (ops : List CMOp) (s : CM)
    (he : s.checkpointsEnabled = true) (ha : s.activeCheckpoint = true)
    (hr : s.root.isSome = true) :
    (ops.foldl applyOp s).checkpointsEnabled = true ∧
    (ops.foldl applyOp s).activeCheckpoint = true ∧
    (ops.foldl applyOp s).root = s.root ∧
    (ops.foldl applyOp s).started = s.started ∧
    (s.pendingUpdate = true → (ops.foldl applyOp s).pendingUpdate = true) ∧
    ((∃ p pid, CMOp.opAdd p pid ∈ ops) →
      (ops.foldl applyOp s).pendingUpdate = true) := by
  induction ops generalizing s with
  | nil =>
    refine ⟨he, ha, rfl, rfl, fun h => h, ?_⟩
    rintro ⟨p, pid, hmem⟩
    simp at hmem
  | cons op ops ih =>
    obtain ⟨he₁, ha₁, hroot₁, hst₁, hpend₁, hadd₁⟩ :=
      applyOp_inflight s op he ha hr
    have hr₁ : (applyOp s op).root.isSome = true := by rw [hroot₁]; exact hr
    obtain ⟨heN, haN, hrootN, hstN, hpendN, haddN⟩ :=
      ih (applyOp s op) he₁ ha₁ hr₁
    refine ⟨heN, haN, by rw [List.foldl_cons, hrootN, hroot₁],
      by rw [List.foldl_cons, hstN, hst₁], ?_, ?_⟩
    · intro h
      exact hpendN (hpend₁ h)
    · rintro ⟨p, pid, hmem⟩
      rcases List.mem_cons.mp hmem with h | h
      · exact hpendN (hadd₁ p pid h.symm)
      · exact haddN ⟨p, pid, h⟩

theorem writeCheckpointRun_ok (outcome : FetchOutcome) (s : CM) :
    ∃ extra, writeCheckpointRun outcome s =
      .ok { s with logs := s.logs ++ extra } := by
  unfold writeCheckpointRun
  split
  · exact ⟨[], by simp⟩
  · cases outcome with
    | ok => exact ⟨[], by simp [fetchPost, responseOk]⟩
    | httpErr status text =>
      simp only [fetchPost]
      split
      · exact ⟨[], by simp⟩
      · exact ⟨_, rfl⟩
    | netErr msg => exact ⟨_, rfl⟩

/-- C3: while one checkpoint publish is in flight, any burst of mutating
calls starts no further publish (the started-publish log is unchanged
and the single in-flight write is still the only one), and when the
in-flight publish finishes, exactly one follow-up publish is started
when updates were recorded — carrying the tree state after all the
mutations — so the burst yields at most one publish beyond the in-flight
one, never one per mutation; a burst containing an `addNode` always
records the pending update that triggers the follow-up. -/
theorem publish_coalescing (ops : List CMOp) (s : CM)
    (outcome : FetchOutcome) (he : s.checkpointsEnabled = true)
    (ha : s.activeCheckpoint = true) (hr : s.root.isSome = true) :
    (ops.foldl applyOp s).started = s.started ∧
    (ops.foldl applyOp s).activeCheckpoint = true ∧
    (∀ s', finishPublish outcome (ops.foldl applyOp s) = .ok s' →
      s'.started = s.started ++
        (if (ops.foldl applyOp s).pendingUpdate then
          [((ops.foldl applyOp s).root, (ops.foldl applyOp s).nodes)]
         else []) ∧
      s'.started.length ≤ s.started.length + 1) ∧
    ((∃ p pid, CMOp.opAdd p pid ∈ ops) →
      (ops.foldl applyOp s).pendingUpdate = true) := by
  obtain ⟨heN, haN, hrootN, hstN, -, haddN⟩ := foldl_inflight ops s he ha hr
  refine ⟨hstN, haN, ?_, haddN⟩
  intro s' hfin
  obtain ⟨extra, hw⟩ := writeCheckpointRun_ok outcome (ops.foldl applyOp s)
  unfold finishPublish at hfin
  rw [hw] at hfin
  simp only [Except.map] at hfin
  injection hfin with hfin
  subst hfin
  obtain ⟨r0, hr0⟩ := Option.isSome_iff_exists.mp hr
  cases hpend : (ops.foldl applyOp s).pendingUpdate with
  | true => simp [hpend, updateCheckpoint, heN, hstN, hrootN, hr0]
  | false => simp [hpend, hstN]

theorem updateCheckpoint_root (s : CM) :
    (updateCheckpoint s).root = s.root := (updateCheckpoint_tree s).2.1

/-- C3 witness: one `addNode` mutation applied while the publish is in
flight starts no publish and records the pending update. -/
theorem publish_coalescing_witness :
    (([CMOp.opAdd { componentName := some "Child" } (some "r")].foldl
        applyOp inflightCM).started = inflightCM.started) ∧
    (([CMOp.opAdd { componentName := some "Child" } (some "r")].foldl
        applyOp inflightCM).pendingUpdate = true) :=
  ⟨(publish_coalescing [CMOp.opAdd { componentName := some "Child" }
      (some "r")] inflightCM .ok rfl rfl rfl).1,
   (publish_coalescing [CMOp.opAdd { componentName := some "Child" }
      (some "r")] inflightCM .ok rfl rfl rfl).2.2.2
      ⟨{ componentName := some "Child" }, some "r", by simp⟩⟩

/-- C8: a publish whose transport fails or answers a non-success status
never raises past the checkpoint subsystem: the `writeCheckpoint` body
always returns normally, leaving the tree untouched and at most
appending log entries; the publish-completion continuation returns
normally for every transport outcome, also when it runs right after any
mutating call; and a transport rejection is logged. -/
theorem publish_failure_contained (outcome : FetchOutcome) (s : CM)
    (op : CMOp) (msg : String) :
    (∃ s', writeCheckpointRun outcome s = .ok s' ∧
       s'.nodes = s.nodes ∧ s'.root = s.root ∧
       ∃ extra, s'.logs = s.logs ++ extra) ∧
    (∃ s', finishPublish outcome s = .ok s') ∧
    (∃ s', finishPublish outcome (applyOp s op) = .ok s') ∧
    (s.root.isSome = true → outcome = .netErr msg →
      writeCheckpointRun outcome s =
        .ok { s with logs := s.logs ++
          ["[Checkpoint] Failed to save checkpoint: " ++ msg] }) := by
  obtain ⟨extra, hw⟩ := writeCheckpointRun_ok outcome s
  obtain ⟨extra₂, hw₂⟩ := writeCheckpointRun_ok outcome (applyOp s op)
  refine ⟨⟨_, hw, rfl, rfl, extra, rfl⟩, ?_, ?_, ?_⟩
  · unfold finishPublish
    rw [hw]
    exact ⟨_, rfl⟩
  · unfold finishPublish
    rw [hw₂]
    exact ⟨_, rfl⟩
  · intro hr hout
    subst hout
    obtain ⟨r0, hr0⟩ := Option.isSome_iff_exists.mp hr
    simp [writeCheckpointRun, fetchPost, hr0]

/-- C8 witness: a transport rejection against the in-flight manager is
caught and logged. -/
theorem publish_failure_contained_witness :
    writeCheckpointRun (.netErr "boom") inflightCM =
      .ok { inflightCM with logs := inflightCM.logs ++
        ["[Checkpoint] Failed to save checkpoint: " ++ "boom"] } :=
  (publish_failure_contained (.netErr "boom") inflightCM
    (CMOp.opMeta "r" []) "boom").2.2.2 rfl rfl

/-- Ids reachable by `children` links from a node other than `nid` never
include `nid` when no registered node lists `nid` among its children. -/
theorem reach_avoid (s' : CM) (nid : String)
    (h : ∀ id n, alookup s'.nodes id = some n → nid ∉ n.children) :
    ∀ (fuel : Nat) (id : String), id ≠ nid → nid ∉ reach s' fuel id := by
  intro fuel
  induction fuel with
  | zero => intro id _ hmem; simp [reach] at hmem
  | succ fuel ih =>
    intro id hne hmem
    simp only [reach] at hmem
    rcases List.mem_cons.mp hmem with h1 | h2
    · exact hne h1.symm
    · cases halo : alookup s'.nodes id with
      | none => rw [halo] at h2; simp at h2
      | some n =>
        rw [halo] at h2
        simp only [List.mem_flatten, List.mem_map] at h2
        obtain ⟨l, ⟨c, hc, rfl⟩, hmem2⟩ := h2
        exact ih c (fun he => h id n halo (he ▸ hc)) hmem2

/-- C10: once a root is set, an `addNode` call with no `parentId` (and a
generated, fresh identity) never replaces it: the root is unchanged, the
new node is registered in the node map, no node lists it as a child, and
it is unreachable from the published tree rooted at the existing
root. -/
theorem root_never_replaced (s : CM) (patch : NodePatch) (r : String)
    (hid : patch.id = none) (hroot : s.root = some r)
    (hreg : (alookup s.nodes r).isSome = true)
    (hfresh0 : alookup s.nodes (freshId s) = none)
    (hfresh : ∀ id n, alookup s.nodes id = some n →
      freshId s ∉ n.children) :
    (addNode s patch none).1 = freshId s ∧
    (addNode s patch none).2.root = some r ∧
    ((alookup (addNode s patch none).2.nodes (freshId s)).isSome = true) ∧
    (∀ id n, alookup (addNode s patch none).2.nodes id = some n →
      freshId s ∉ n.children) ∧
    (∀ fuel, freshId s ∉ reach (addNode s patch none).2 fuel r) := by
  have h1 : (addNode s patch none).1 = freshId s := by
    simp [addNode, hid]
  have hnodes : (addNode s patch none).2.nodes =
      aset s.nodes (freshId s)
        { id := freshId s
          componentName := patch.componentName.getD "Unknown"
          startTime := s.clock
          props := patch.props.getD [] } := by
    simp [addNode, hid, hroot, updateCheckpoint_nodes]
  have hroot2 : (addNode s patch none).2.root = some r := by
    simp [addNode, hid, hroot, updateCheckpoint_root]
  have hchil : ∀ id n, alookup (addNode s patch none).2.nodes id = some n →
      freshId s ∉ n.children := by
    intro id n hlook
    rw [hnodes] at hlook
    by_cases hid2 : id = freshId s
    · subst hid2
      rw [alookup_aset_self] at hlook
      cases hlook
      simp
    · rw [alookup_aset_ne _ _ _ _ hid2] at hlook
      exact hfresh id n hlook
  have hrne : r ≠ freshId s := by
    intro he
    rw [he, hfresh0] at hreg
    simp at hreg
  refine ⟨h1, hroot2, ?_, hchil, ?_⟩
  · rw [hnodes, alookup_aset_self]
    rfl
  · intro fuel
    exact reach_avoid _ _ hchil fuel r hrne

/-- C10 witness: adding a second parentless node to a manager that
already has a root leaves the root in place and registers the node. -/
theorem root_never_replaced_witness :
    (addNode rootedCM { componentName := some "Second" } none).2.root =
      some "uuid-0" ∧
    (alookup (addNode rootedCM { componentName := some "Second" }
      none).2.nodes (freshId rootedCM)).isSome = true := by
  have hfr : ∀ id n, alookup rootedCM.nodes id = some n →
      freshId rootedCM ∉ n.children := by
    intro id n h
    rw [show rootedCM.nodes = [("uuid-0",
      ({ id := "uuid-0", componentName := "Root",
         startTime := 0 } : ENode))] from rfl] at h
    simp only [alookup] at h
    split at h
    · cases h; simp
    · cases h
  exact ⟨(root_never_replaced rootedCM { componentName := some "Second" }
      "uuid-0" rfl rfl rfl rfl hfr).2.1,
    (root_never_replaced rootedCM { componentName := some "Second" }
      "uuid-0" rfl rfl rfl rfl hfr).2.2.1⟩

/-! ## Context lookup lemmas -/

theorem alookup_append_of_none {κ α : Type} [DecidableEq κ]
    (l₁ l₂ : List (κ × α)) (key : κ) (h : alookup l₁ key = none) :
    alookup (l₁ ++ l₂) key = alookup l₂ key := by
  induction l₁ with
  | nil => rfl
  | cons kv rest ih =>
    simp only [alookup] at h ⊢
    by_cases hkv : kv.1 = key
    · rw [if_pos hkv] at h
      cases h
    · rw [if_neg hkv] at h
      rw [if_neg hkv]
      exact ih h

theorem alookup_append_of_some {κ α : Type} [DecidableEq κ]
    (l₁ l₂ : List (κ × α)) (key : κ) (v : α) (h : alookup l₁ key = some v) :
    alookup (l₁ ++ l₂) key = some v := by
  induction l₁ with
  | nil => cases h
  | cons kv rest ih =>
    simp only [alookup] at h ⊢
    by_cases hkv : kv.1 = key
    · rw [if_pos hkv] at h ⊢
      exact h
    · rw [if_neg hkv] at h ⊢
      exact ih h

theorem alookup_filterNew_none {κ α : Type} [DecidableEq κ]
    (new l : List (κ × α)) (key : κ) (h : (alookup new key).isSome = true) :
    alookup (l.filter (fun kv => (alookup new kv.1).isNone)) key = none := by
  induction l with
  | nil => rfl
  | cons kv rest ih =>
    rw [List.filter_cons]
    by_cases hkv : kv.1 = key
    · have hpred : (alookup new kv.1).isNone = false := by
        rw [hkv]
        cases halo : alookup new key
        · rw [halo] at h
          cases h
        · rfl
      simp [hpred, ih]
    · cases hdrop : (alookup new kv.1).isNone with
      | false => simp [hdrop, ih]
      | true => simp [hdrop, alookup, hkv, ih]

theorem alookup_filterNew_keep {κ α : Type} [DecidableEq κ]
    (new l : List (κ × α)) (key : κ) (h : alookup new key = none) :
    alookup (l.filter (fun kv => (alookup new kv.1).isNone)) key =
      alookup l key := by
  induction l with
  | nil => rfl
  | cons kv rest ih =>
    rw [List.filter_cons]
    by_cases hkv : kv.1 = key
    · have hpred : (alookup new kv.1).isNone = true := by rw [hkv, h]; rfl
      rw [if_pos hpred]
      simp [alookup, hkv]
    · cases hdrop : (alookup new kv.1).isNone with
      | false => simp [hdrop, alookup, hkv, ih]
      | true => simp [hdrop, alookup, hkv, ih]

theorem ECtx.get_mk_some (c : List (Nat × Value)) (par : ECtx) (k : Nat) :
    ECtx.get (.mk c (some par)) k =
      (match alookup c k with
       | some v => some v
       | none => par.get k) := rfl

theorem ECtx.get_of_ctx_some (e : ECtx) (k : Nat) (v : Value)
    (h : alookup e.ctx k = some v) : e.get k = some v := by
  cases e with
  | mk c p =>
    cases p with
    | none => exact h
    | some par =>
      rw [ECtx.get_mk_some, show alookup c k = some v from h]

theorem ECtx.get_extend_same (e : ECtx) (k : Nat) (v : Value) :
    (e.extendCtx [(k, v)]).get k = some v := by
  unfold ECtx.extendCtx
  simp only [List.isEmpty, Bool.false_eq_true, if_false]
  rw [ECtx.get_mk_some]
  rw [alookup_append_of_none _ _ _
    (alookup_filterNew_none [(k, v)] e.ctx k (by simp [alookup]))]
  simp [alookup]

theorem ECtx.get_extend_other (e : ECtx) (new : List (Nat × Value))
    (k' : Nat) (h : alookup new k' = none) :
    (e.extendCtx new).get k' = e.get k' := by
  unfold ECtx.extendCtx
  cases hemp : new.isEmpty with
  | true => simp
  | false =>
    simp only [Bool.false_eq_true, if_false]
    rw [ECtx.get_mk_some]
    cases halo : alookup e.ctx k' with
    | some v =>
      rw [alookup_append_of_some _ _ _ _
        ((alookup_filterNew_keep new e.ctx k' h).trans halo)]
      exact (ECtx.get_of_ctx_some e k' v halo).symm
    | none =>
      rw [alookup_append_of_none _ _ _
        ((alookup_filterNew_keep new e.ctx k' h).trans halo), h]

theorem isUndefined_eq_false (v : Value) (h : v ≠ .vUndefined) :
    isUndefined v = false := by
  cases v <;> first | rfl | exact absurd rfl h

/-- C9: for a key bound to defined values in two nested scopes, a reader
inside the inner scope observes the innermost value; the body of the
inner scope runs against the extended frame and, when the inner scope
completes — whether the body returned or threw — the previous frame is
the current one again, so a reader in the outer scope observes the outer
value; extending a frame never mutates it: the extended frame resolves
every key absent from the update exactly as the frame it extends
(nearest-definition lookup through the frame lineage).  The one corner
the source carves out is flagged by the last conjunct: a key bound to
`undefined` shadows the outer binding but reads as the context's default
(`useContext` collapses `undefined` to the default). -/
theorem context_nesting (cur : ECtx) (k k' : Nat) (v₁ v₂ dflt : Value)
    {α : Type} (fn : Comp α) (hk : k' ≠ k)
    (hv₁ : v₁ ≠ .vUndefined) (hv₂ : v₂ ≠ .vUndefined) :
    useContextRun k dflt
      ((cur.extendCtx [(k, v₁)]).extendCtx [(k, v₂)]) = v₂ ∧
    withContextRun [(k, v₂)] fn (cur.extendCtx [(k, v₁)]) =
      ((fn ((cur.extendCtx [(k, v₁)]).extendCtx [(k, v₂)])).1,
        cur.extendCtx [(k, v₁)]) ∧
    (withContextRun [(k, v₂)] fn (cur.extendCtx [(k, v₁)])).2 =
      cur.extendCtx [(k, v₁)] ∧
    useContextRun k dflt (cur.extendCtx [(k, v₁)]) = v₁ ∧
    ((cur.extendCtx [(k, v₁)]).extendCtx [(k, v₂)]).get k' =
      (cur.extendCtx [(k, v₁)]).get k' ∧
    useContextRun k dflt (cur.extendCtx [(k, .vUndefined)]) = dflt := by
  refine ⟨?_, rfl, rfl, ?_, ?_, ?_⟩
  · unfold useContextRun
    rw [ECtx.get_extend_same]
    simp [isUndefined_eq_false v₂ hv₂]
  · unfold useContextRun
    rw [ECtx.get_extend_same]
    simp [isUndefined_eq_false v₁ hv₁]
  · exact ECtx.get_extend_other _ [(k, v₂)] k'
      (by simp [alookup]; exact fun he => hk he.symm)
  · unfold useContextRun
    rw [ECtx.get_extend_same]
    simp [isUndefined]

/-- C9 witness: concrete nested scopes over the root frame, with an
inner body that throws; the inner reader sees the inner value, the
restored outer frame still maps the key to the outer value, and a key
bound to `undefined` reads as the default. -/
theorem context_nesting_witness :
    useContextRun 0 .vNull
      (((ECtx.mk [] none).extendCtx [(0, .vNum 1)]).extendCtx
        [(0, .vNum 2)]) = .vNum 2 ∧
    (withContextRun [(0, .vNum 2)]
      (fun e => (.error (.err "boom"), e) : Comp Value)
      ((ECtx.mk [] none).extendCtx [(0, .vNum 1)])).2 =
      (ECtx.mk [] none).extendCtx [(0, .vNum 1)] ∧
    useContextRun 0 .vNull ((ECtx.mk [] none).extendCtx [(0, .vNum 1)]) =
      .vNum 1 ∧
    useContextRun 0 .vNull
      ((ECtx.mk [] none).extendCtx [(0, .vUndefined)]) = .vNull :=
  ⟨(@context_nesting (ECtx.mk [] none) 0 1 (.vNum 1) (.vNum 2) .vNull
      Value (fun e => (.error (.err "boom"), e)) (by decide)
      (fun h => nomatch h) (fun h => nomatch h)).1,
   (@context_nesting (ECtx.mk [] none) 0 1 (.vNum 1) (.vNum 2) .vNull
      Value (fun e => (.error (.err "boom"), e)) (by decide)
      (fun h => nomatch h) (fun h => nomatch h)).2.2.1,
   (@context_nesting (ECtx.mk [] none) 0 1 (.vNum 1) (.vNum 2) .vNull
      Value (fun e => (.error (.err "boom"), e)) (by decide)
      (fun h => nomatch h) (fun h => nomatch h)).2.2.2.1,
   (@context_nesting (ECtx.mk [] none) 0 1 (.vNum 1) (.vNum 2) .vNull
      Value (fun e => (.error (.err "boom"), e)) (by decide)
      (fun h => nomatch h) (fun h => nomatch h)).2.2.2.2.2⟩

end Gensx